import Mathlib

/-!
# Verification of the tree-hoprs worktree lifecycle manager

A shallow embedding of `src/main.rs`: the configuration data model, the
worktree reconciler (`list_worktrees`), and the lifecycle operations
(`create_worktree`, `delete_worktree`, `update_main_worktree`).

Side effects are made explicit:
* the persisted config file is a value of type `Option Config`
  (`none` models a missing or unparsable file); writing it produces a new
  value;
* directory reads are a function `String → Option (List DirEntry)`
  (`none` models a failing `fs::read_dir`);
* executed subprocess invocations are collected in a trace of `Cmd`
  values (working directory plus argument list); dry-run suppresses the
  commands the source suppresses;
* the output of `git worktree list` is an explicit list of lines;
* Rust panics (`unwrap` on `None`, out-of-bounds indexing/slicing) and
  propagated `Err` results are both modelled as `ProgError` values.
-/

namespace TreeHoprs

/-- Mirrors `struct RepoConfig` in main.rs. -/
structure RepoConfig where
  base_tree : String
  base_path : String
  inactive_trees : List String
deriving Repr, DecidableEq

/-- Mirrors `struct Config` in main.rs; the `HashMap<String, RepoConfig>`
is modelled as an association list with `lookupRepo`/`insertRepo`
reproducing `get`/`insert`. -/
structure Config where
  repo : List (String × RepoConfig)
  active_repo : String
deriving Repr, DecidableEq

/-- A failure outcome: `panic` models a Rust panic (`unwrap` on `None`,
index out of bounds), `err` models a propagated `Err`. -/
inductive ProgError where
  | panic (msg : String)
  | err (msg : String)
deriving Repr, DecidableEq

/-- A subprocess invocation: working directory and argument list
(the program is always `git`). -/
structure Cmd where
  cwd : String
  args : List String
deriving Repr, DecidableEq

/-- One entry of a directory listing, with the `is_dir` flag the source
queries via `file_type().is_dir()`. -/
structure DirEntry where
  name : String
  is_dir : Bool
deriving Repr, DecidableEq

/-- `HashMap::get` on the modelled repositories map. -/
def lookupRepo : List (String × RepoConfig) → String → Option RepoConfig
  | [], _ => none
  | (k', v) :: rest, k => if k' = k then some v else lookupRepo rest k

/-- `HashMap::insert` on the modelled repositories map: replaces the
binding if the key is present, otherwise appends it. -/
def insertRepo : List (String × RepoConfig) → String → RepoConfig → List (String × RepoConfig)
  | [], k, v => [(k, v)]
  | (k', v') :: rest, k, v =>
    if k' = k then (k, v) :: rest else (k', v') :: insertRepo rest k v

/-- Accumulator pass of `splitWhitespace` (Rust `str::split_whitespace`):
`acc` holds the current field reversed. -/
def splitWSAux : List Char → List Char → List String
  | [], acc => if acc.isEmpty then [] else [String.mk acc.reverse]
  | c :: cs, acc =>
    if c.isWhitespace then
      if acc.isEmpty then splitWSAux cs []
      else String.mk acc.reverse :: splitWSAux cs []
    else splitWSAux cs (c :: acc)

/-- Rust `str::split_whitespace().collect()`: whitespace-separated
fields, empty runs skipped. -/
def splitWhitespace (s : String) : List String :=
  splitWSAux s.data []

/-- Boolean infix test on character lists (helper for `strContains`). -/
def isInfixOfCh : List Char → List Char → Bool
  | needle, [] => needle.isEmpty
  | needle, h :: t => needle.isPrefixOf (h :: t) || isInfixOfCh needle t

/-- Rust `str::contains(&str)`: substring test. -/
def strContains (hay needle : String) : Bool :=
  isInfixOfCh needle.data hay.data

/-- The count used for fresh slot names: `read_dir(base_path)` entries
filtered to those whose `file_type().is_dir()` holds (main.rs:275-277). -/
def dirCount (entries : List DirEntry) : Nat :=
  (entries.filter (fun e => e.is_dir)).length

/-- `get_values_from_config_file` (main.rs:237-245): resolve the
`RepoConfig` for the explicitly named repository, or for
`active_repository` when none is named. The source calls `.unwrap()` on
the map lookup, so a missing key is a panic, not an `Err`. -/
def get_values_from_config_file (cfgFile : Option Config) (repo : Option String) :
    Except ProgError RepoConfig :=
  match cfgFile with
  | none => .error (.err "config file missing or malformed")
  | some config =>
    match repo with
    | none =>
      match lookupRepo config.repo config.active_repo with
      | some rc => .ok rc
      | none => .error (.panic "called Option unwrap on a None value")
    | some r =>
      match lookupRepo config.repo r with
      | some rc => .ok rc
      | none => .error (.panic "called Option unwrap on a None value")

deriving instance DecidableEq for Except

/-- Result of `create_worktree`: outcome (`ok` carries the worktree path
announced by the final `println!`), executed-command trace, and the
config-file state afterwards. -/
structure CreateOut where
  res : Except ProgError String
  trace : List Cmd
  cfg : Option Config
deriving Repr, DecidableEq

/-- `create_worktree` (main.rs:247-323). Steps: run `git pull` in the
base working copy; run (or, dry-run, print) `git branch <name>` there;
choose the worktree path — head of `inactive_trees` if non-empty, else
`base_path/tree<N>` with `N` the directory-entry count of `base_path`;
build the materialization command — `switch` inside an existing
non-empty directory, `worktree add` if `read_dir` fails, a bare `git`
otherwise; in non-dry-run execute it and, when the chosen path is
contained in `inactive_trees`, remove index 0 and persist the updated
`RepoConfig` under the active repository key. -/
def create_worktree (cfgFile : Option Config) (readDir : String → Option (List DirEntry))
    (values : RepoConfig) (branch_name : String) (dry_run : Bool) : CreateOut :=
  let baseDir := values.base_path ++ "/" ++ values.base_tree
  let trace1 :=
    if dry_run then [Cmd.mk baseDir ["pull"]]
    else [Cmd.mk baseDir ["pull"], Cmd.mk baseDir ["branch", branch_name]]
  let slot : Except ProgError String :=
    match values.inactive_trees with
    | p :: _ => .ok p
    | [] =>
      match readDir values.base_path with
      | none => .error (.err "read_dir failed")
      | some entries =>
        .ok (values.base_path ++ "/" ++ ("tree" ++ toString (dirCount entries)))
  match slot with
  | .error e => ⟨.error e, trace1, cfgFile⟩
  | .ok worktree_path =>
    let wcmd : Cmd :=
      match readDir worktree_path with
      | some entries =>
        if entries.length > 0 then Cmd.mk worktree_path ["switch", branch_name]
        else Cmd.mk baseDir []
      | none => Cmd.mk baseDir ["worktree", "add", worktree_path, branch_name]
    if dry_run then ⟨.ok worktree_path, trace1, cfgFile⟩
    else
      let trace2 := trace1 ++ [wcmd]
      if values.inactive_trees.contains worktree_path then
        match cfgFile with
        | none => ⟨.error (.err "config file missing or malformed"), trace2, cfgFile⟩
        | some config =>
          let values' := { values with inactive_trees := values.inactive_trees.eraseIdx 0 }
          ⟨.ok worktree_path, trace2,
            some { config with repo := insertRepo config.repo config.active_repo values' }⟩
      else ⟨.ok worktree_path, trace2, cfgFile⟩

/-- Result of `delete_worktree`: outcome, executed-command trace,
config-file state afterwards, and the informational messages printed. -/
structure DeleteOut where
  res : Except ProgError Unit
  trace : List Cmd
  cfg : Option Config
  msgs : List String
deriving Repr, DecidableEq

/-- `delete_worktree` (main.rs:356-395), the Archive operation. Runs
`git worktree list` in the base working copy; finds the first output
line containing the branch name as a substring (none: report
"does not exist", succeed); takes its first whitespace field as the path
(`[0]` panics on a field-less line); reloads the config file and checks
the active repository's `inactive_trees` (the lookup is `.unwrap()`ed;
membership: report "already inactive", succeed); in dry-run reports the
intended archival; otherwise appends the path to the caller's
`inactive_trees` and persists. -/
def delete_worktree (cfgFile : Option Config) (listing : List String)
    (values : RepoConfig) (branch_name : String) (dry_run : Bool) : DeleteOut :=
  let listCmd := Cmd.mk (values.base_path ++ "/" ++ values.base_tree) ["worktree", "list"]
  match listing.find? (fun line => strContains line branch_name) with
  | none =>
    ⟨.ok (), [listCmd], cfgFile, ["Worktree " ++ branch_name ++ " does not exist"]⟩
  | some line =>
    match (splitWhitespace line).head? with
    | none => ⟨.error (.panic "index out of bounds"), [listCmd], cfgFile, []⟩
    | some worktree_path =>
      match cfgFile with
      | none => ⟨.error (.err "config file missing or malformed"), [listCmd], cfgFile, []⟩
      | some config =>
        match lookupRepo config.repo config.active_repo with
        | none =>
          ⟨.error (.panic "called Option unwrap on a None value"), [listCmd], cfgFile, []⟩
        | some active_rc =>
          if active_rc.inactive_trees.contains worktree_path then
            ⟨.ok (), [listCmd], cfgFile,
              ["Worktree " ++ branch_name ++ " is already inactive"]⟩
          else if dry_run then
            ⟨.ok (), [listCmd], cfgFile, ["Would archive worktree " ++ worktree_path]⟩
          else
            let values' :=
              { values with inactive_trees := values.inactive_trees ++ [worktree_path] }
            ⟨.ok (), [listCmd],
              some { config with repo := insertRepo config.repo config.active_repo values' },
              []⟩

/-- Result of `update_main_worktree`: outcome, executed-command trace,
and the config-file state afterwards. -/
structure UpdateOut where
  res : Except ProgError Unit
  trace : List Cmd
  cfg : Option Config
deriving Repr, DecidableEq

/-- `update_main_worktree` (main.rs:397-408): run `git pull` in the base
working copy, or only print the command in dry-run; the config is never
touched. -/
def update_main_worktree (cfgFile : Option Config) (values : RepoConfig) (dry_run : Bool) :
    UpdateOut :=
  let cmd := Cmd.mk (values.base_path ++ "/" ++ values.base_tree) ["pull"]
  if dry_run then ⟨.ok (), [], cfgFile⟩ else ⟨.ok (), [cmd], cfgFile⟩

/-- One line of the reconciler loop body in `list_worktrees`
(main.rs:333-338 raw, 344-349 tabular), on the already-split fields:
`items[0]` (panic when absent) is checked against `inactive_trees`
(membership: the line is skipped, `.ok none`); then `items[2]` (panic
when absent) is the branch field; raw mode slices `[1..len-1]` off it
(panic when the byte range is invalid), tabular mode keeps it verbatim.
`.ok (some (path, branch))` is an emitted record. -/
def processFields (inactive : List String) (raw : Bool) (items : List String) :
    Except ProgError (Option (String × String)) :=
  match items.head? with
  | none => .error (.panic "index out of bounds")
  | some p =>
    if inactive.contains p then .ok none
    else
      match items[2]? with
      | none => .error (.panic "index out of bounds")
      | some b =>
        if raw then
          if b.length ≤ 1 then .error (.panic "byte index out of bounds")
          else .ok (some (p, String.mk b.data.tail.dropLast))
        else .ok (some (p, b))

/-- The reconciler loop over the listing lines: emitted records in
order, plus the error that aborted the loop, if any (`none` = the whole
listing was processed successfully). -/
def processLines (inactive : List String) (raw : Bool) :
    List String → List (String × String) × Option ProgError
  | [] => ([], none)
  | line :: rest =>
    match processFields inactive raw (splitWhitespace line) with
    | .error e => ([], some e)
    | .ok none => processLines inactive raw rest
    | .ok (some r) =>
      let out := processLines inactive raw rest
      (r :: out.fst, out.snd)

/-- `list_worktrees` (main.rs:325-354): run `git worktree list` in the
base working copy and reconcile its output lines against
`inactive_trees`. Returns the emitted (path, displayed branch) records
and the aborting error, if any. -/
def list_worktrees (values : RepoConfig) (raw : Bool) (listing : List String) :
    List (String × String) × Option ProgError :=
  processLines values.inactive_trees raw listing

/-- A VCS invocation that mutates state: branch-create, worktree-add, or
branch-switch. `pull` and `worktree list` are not mutating. -/
def mutatingCmd (c : Cmd) : Bool :=
  match c.args with
  | "branch" :: _ => true
  | "worktree" :: "add" :: _ => true
  | "switch" :: _ => true
  | _ => false

/-! ## Concrete fixtures used by witnesses -/

/-- A repository configuration with two archived slots. -/
def rcW1 : RepoConfig := ⟨"main", "/r", ["/r/t2", "/r/t3"]⟩

/-- A repository configuration with no archived slots. -/
def rcW0 : RepoConfig := ⟨"main", "/r", []⟩

/-- A persisted config holding `rcW1` as the active repository. -/
def cfgW1 : Config := ⟨[("repo1", rcW1)], "repo1"⟩

/-- A directory-read oracle on which every path fails to read. -/
def rdNone : String → Option (List DirEntry) := fun _ => none

/-- A directory-read oracle: the base path `/r` holds one directory and
one file, everything else fails to read. -/
def rdBase : String → Option (List DirEntry) := fun s =>
  if s = "/r" then some [⟨"main", true⟩, ⟨"f.txt", false⟩] else none

/-- A directory-read oracle on which the archived slot `/r/t2` reads as
an empty directory. -/
def rdEmptySlot : String → Option (List DirEntry) := fun s =>
  if s = "/r/t2" then some [] else none

/-! ## Dry-run frame lemmas (shared by the C3 theorem) -/

/-- In dry-run mode `create_worktree` leaves the config file untouched
and only ever runs the pull. -/
theorem create_dry_frame (cfgFile : Option Config) (rd : String → Option (List DirEntry))
    (values : RepoConfig) (branch : String) :
    (create_worktree cfgFile rd values branch true).cfg = cfgFile ∧
    (create_worktree cfgFile rd values branch true).trace =
      [Cmd.mk (values.base_path ++ "/" ++ values.base_tree) ["pull"]] := by
  rcases h : values.inactive_trees with _ | ⟨p, rest⟩
  · rcases h2 : rd values.base_path with _ | entries <;> simp [create_worktree, h, h2]
  · simp [create_worktree, h]

/-- In dry-run mode `delete_worktree` leaves the config file untouched
and only ever runs the worktree listing. -/
theorem delete_dry_frame (cfgFile : Option Config) (listing : List String)
    (values : RepoConfig) (branch : String) :
    (delete_worktree cfgFile listing values branch true).cfg = cfgFile ∧
    (delete_worktree cfgFile listing values branch true).trace =
      [Cmd.mk (values.base_path ++ "/" ++ values.base_tree) ["worktree", "list"]] := by
  rcases h : listing.find? (fun line => strContains line branch) with _ | line
  · simp [delete_worktree, h]
  · rcases h2 : (splitWhitespace line).head? with _ | p
    · simp [delete_worktree, h, h2]
    · cases cfgFile with
      | none => simp [delete_worktree, h, h2]
      | some config =>
        rcases h3 : lookupRepo config.repo config.active_repo with _ | rc
        · simp [delete_worktree, h, h2, h3]
        · simp only [delete_worktree, h, h2, h3]
          split <;> simp

/-- C3: with the dry-run flag set, each of Create, Archive and Update
leaves the persisted Config byte-identical and executes no VCS mutating
command (no branch-create, worktree-add or switch); read-only or refresh
commands (the pull in Create, the listing in Archive) may still run. -/
theorem dry_run_no_mutation (cfgFile : Option Config) (rd : String → Option (List DirEntry))
    (values : RepoConfig) (branch : String) (listing : List String) :
    ((create_worktree cfgFile rd values branch true).cfg = cfgFile ∧
      ∀ c ∈ (create_worktree cfgFile rd values branch true).trace, mutatingCmd c = false) ∧
    ((delete_worktree cfgFile listing values branch true).cfg = cfgFile ∧
      ∀ c ∈ (delete_worktree cfgFile listing values branch true).trace, mutatingCmd c = false) ∧
    ((update_main_worktree cfgFile values true).cfg = cfgFile ∧
      ∀ c ∈ (update_main_worktree cfgFile values true).trace, mutatingCmd c = false) := by
  obtain ⟨hc1, hc2⟩ := create_dry_frame cfgFile rd values branch
  obtain ⟨hd1, hd2⟩ := delete_dry_frame cfgFile listing values branch
  refine ⟨⟨hc1, ?_⟩, ⟨hd1, ?_⟩, rfl, ?_⟩
  · rw [hc2]; intro c hc; simp at hc; subst hc; rfl
  · rw [hd2]; intro c hc; simp at hc; subst hc; rfl
  · intro c hc; simp [update_main_worktree] at hc

/-- Witness for C3 on concrete dry-run invocations of all three
operations. -/
theorem dry_run_no_mutation_witness :
    (create_worktree (some cfgW1) rdNone rcW1 "feat" true).cfg = some cfgW1 ∧
    (delete_worktree (some cfgW1) ["/r/t9 def [feat]"] rcW1 "feat" true).cfg = some cfgW1 ∧
    (update_main_worktree (some cfgW1) rcW1 true).cfg = some cfgW1 ∧
    mutatingCmd ⟨"/r/main", ["pull"]⟩ = false :=
  ⟨(dry_run_no_mutation (some cfgW1) rdNone rcW1 "feat" ["/r/t9 def [feat]"]).1.1,
    (dry_run_no_mutation (some cfgW1) rdNone rcW1 "feat" ["/r/t9 def [feat]"]).2.1.1,
    (dry_run_no_mutation (some cfgW1) rdNone rcW1 "feat" ["/r/t9 def [feat]"]).2.2.1,
    (dry_run_no_mutation (some cfgW1) rdNone rcW1 "feat" ["/r/t9 def [feat]"]).1.2
      ⟨"/r/main", ["pull"]⟩ (by decide)⟩

/-- C1: when `inactiveTrees` is non-empty, a successful non-dry-run
Create uses `inactiveTrees[0]` as the worktree path, removes exactly
that front element (the rest keep their order), and persists the updated
`RepoConfig` under the active repository key. -/
theorem create_reuses_oldest_slot
    (cfgFile : Option Config) (rd : String → Option (List DirEntry))
    (values : RepoConfig) (branch p path : String) (rest : List String)
    (tr : List Cmd) (cfg' : Option Config)
    (hin : values.inactive_trees = p :: rest)
    (hrun : create_worktree cfgFile rd values branch false = ⟨.ok path, tr, cfg'⟩) :
    path = p ∧ ∃ config, cfgFile = some config ∧
      cfg' = some { config with
        repo := insertRepo config.repo config.active_repo
          { values with inactive_trees := rest } } := by
  cases cfgFile with
  | none => simp [create_worktree, hin] at hrun
  | some config =>
    simp [create_worktree, hin] at hrun
    exact ⟨hrun.1.symm, config, rfl, hrun.2.2.symm⟩

/-- Witness for C1 on a concrete two-slot configuration. -/
theorem create_reuses_oldest_slot_witness :
    "/r/t2" = "/r/t2" ∧ ∃ config, (some cfgW1 : Option Config) = some config ∧
      (some ⟨[("repo1", ⟨"main", "/r", ["/r/t3"]⟩)], "repo1"⟩ : Option Config) =
        some { config with
          repo := insertRepo config.repo config.active_repo
            { rcW1 with inactive_trees := ["/r/t3"] } } :=
  create_reuses_oldest_slot (some cfgW1) rdNone rcW1 "feat" "/r/t2" "/r/t2" ["/r/t3"]
    [⟨"/r/main", ["pull"]⟩, ⟨"/r/main", ["branch", "feat"]⟩,
      ⟨"/r/main", ["worktree", "add", "/r/t2", "feat"]⟩]
    (some ⟨[("repo1", ⟨"main", "/r", ["/r/t3"]⟩)], "repo1"⟩)
    rfl (by decide)

/-- C2: when `inactiveTrees` is empty, a non-dry-run Create announces
the fresh path `basePath/tree<N>` with `N` the number of directory
entries of `basePath` that are directories, and the config file is not
written (it stays exactly as it was). -/
theorem create_fresh_slot
    (cfgFile : Option Config) (rd : String → Option (List DirEntry))
    (values : RepoConfig) (branch : String) (entries : List DirEntry)
    (hin : values.inactive_trees = [])
    (hrd : rd values.base_path = some entries) :
    (create_worktree cfgFile rd values branch false).res =
      .ok (values.base_path ++ "/" ++ ("tree" ++ toString (dirCount entries))) ∧
    (create_worktree cfgFile rd values branch false).cfg = cfgFile := by
  unfold create_worktree
  simp [hin, hrd]

/-- Witness for C2 on a base path holding one directory and one file
(so `N = 1`). -/
theorem create_fresh_slot_witness :
    (create_worktree (some cfgW1) rdBase rcW0 "feat" false).res =
      .ok (rcW0.base_path ++ "/" ++ ("tree" ++ toString (dirCount [⟨"main", true⟩, ⟨"f.txt", false⟩]))) ∧
    (create_worktree (some cfgW1) rdBase rcW0 "feat" false).cfg = some cfgW1 :=
  create_fresh_slot (some cfgW1) rdBase rcW0 "feat" [⟨"main", true⟩, ⟨"f.txt", false⟩]
    rfl (by decide)

/-- C4: Archive is idempotent. When the listing resolves the branch to a
path that is already in the persisted Config's active repository's
`inactiveTrees`, Archive reports "already inactive", succeeds, and
leaves the config file exactly as it was (for any dry-run setting), so
no duplicate entry is introduced. -/
theorem archive_idempotent
    (config : Config) (rc : RepoConfig) (listing : List String)
    (values : RepoConfig) (branch line p : String) (dry : Bool)
    (hfind : listing.find? (fun l => strContains l branch) = some line)
    (hhead : (splitWhitespace line).head? = some p)
    (hactive : lookupRepo config.repo config.active_repo = some rc)
    (hmem : rc.inactive_trees.contains p = true) :
    delete_worktree (some config) listing values branch dry =
      ⟨.ok (), [Cmd.mk (values.base_path ++ "/" ++ values.base_tree) ["worktree", "list"]],
        some config, ["Worktree " ++ branch ++ " is already inactive"]⟩ := by
  have hmem' : p ∈ rc.inactive_trees := by simpa using hmem
  simp [delete_worktree, hfind, hhead, hactive, hmem']

/-- Witness for C4: archiving the already-archived `/r/t2` again. -/
theorem archive_idempotent_witness :
    delete_worktree (some cfgW1) ["/r/t2 abc [old]"] rcW1 "old" false =
      ⟨.ok (), [Cmd.mk (rcW1.base_path ++ "/" ++ rcW1.base_tree) ["worktree", "list"]],
        some cfgW1, ["Worktree " ++ "old" ++ " is already inactive"]⟩ :=
  archive_idempotent cfgW1 rcW1 ["/r/t2 abc [old]"] rcW1 "old" "/r/t2 abc [old]" "/r/t2"
    false (by decide) (by decide) (by decide) (by decide)

/-- C5: when no listing line contains the branch name as a substring,
Archive reports "does not exist", returns success (not an error), and
the config file is unchanged (for any dry-run setting). -/
theorem archive_not_found
    (cfgFile : Option Config) (listing : List String)
    (values : RepoConfig) (branch : String) (dry : Bool)
    (hnone : ∀ l ∈ listing, strContains l branch = false) :
    delete_worktree cfgFile listing values branch dry =
      ⟨.ok (), [Cmd.mk (values.base_path ++ "/" ++ values.base_tree) ["worktree", "list"]],
        cfgFile, ["Worktree " ++ branch ++ " does not exist"]⟩ := by
  have hfind : listing.find? (fun l => strContains l branch) = none :=
    List.find?_eq_none.mpr (by simpa using hnone)
  simp [delete_worktree, hfind]

/-- Witness for C5: archiving a branch absent from the listing. -/
theorem archive_not_found_witness :
    delete_worktree (some cfgW1) ["/r/main abc [main]"] rcW1 "nope" false =
      ⟨.ok (), [Cmd.mk (rcW1.base_path ++ "/" ++ rcW1.base_tree) ["worktree", "list"]],
        some cfgW1, ["Worktree " ++ "nope" ++ " does not exist"]⟩ :=
  archive_not_found (some cfgW1) ["/r/main abc [main]"] rcW1 "nope" false (by decide)

/-- C9: when the repositories map lacks the requested key (explicitly
named or the `active_repository` one), resolving the `RepoConfig` does
not succeed: `get_values_from_config_file` yields an error outcome (in
the source, an `unwrap` panic), and Archive's mid-operation reload
likewise makes `delete_worktree` end in an error outcome rather than
success. The three cases are independent: each conclusion constrains
only its own config. -/
theorem missing_repo_is_error
    (cfgA cfgB cfgC : Config) (name : String) (listing : List String)
    (values : RepoConfig) (branch line : String) (p : String) (dry : Bool)
    (hmiss : lookupRepo cfgA.repo name = none)
    (hmissActiveB : lookupRepo cfgB.repo cfgB.active_repo = none)
    (hmissActiveC : lookupRepo cfgC.repo cfgC.active_repo = none)
    (hfind : listing.find? (fun l => strContains l branch) = some line)
    (hhead : (splitWhitespace line).head? = some p) :
    (∃ e, get_values_from_config_file (some cfgA) (some name) = .error e) ∧
    (∃ e, get_values_from_config_file (some cfgB) none = .error e) ∧
    (∃ e, (delete_worktree (some cfgC) listing values branch dry).res = .error e) := by
  refine ⟨⟨.panic "called Option unwrap on a None value", ?_⟩,
    ⟨.panic "called Option unwrap on a None value", ?_⟩,
    ⟨.panic "called Option unwrap on a None value", ?_⟩⟩
  · simp [get_values_from_config_file, hmiss]
  · simp [get_values_from_config_file, hmissActiveB]
  · simp [delete_worktree, hfind, hhead, hmissActiveC]

/-- Witness for C9: the named lookup fails on `cfgW1`, whose
`active_repository` entry is present but which lacks the requested name
`other`; the active-key lookups fail on a config whose map holds only an
unrelated name. -/
theorem missing_repo_is_error_witness :
    (∃ e, get_values_from_config_file (some cfgW1) (some "other") = .error e) ∧
    (∃ e, get_values_from_config_file (some ⟨[("x", rcW0)], "repo1"⟩) none = .error e) ∧
    (∃ e, (delete_worktree (some ⟨[("x", rcW0)], "repo1"⟩) ["/r/t9 def [feat]"]
      rcW1 "feat" false).res = .error e) :=
  missing_repo_is_error cfgW1 ⟨[("x", rcW0)], "repo1"⟩ ⟨[("x", rcW0)], "repo1"⟩ "other"
    ["/r/t9 def [feat]"] rcW1 "feat" "/r/t9 def [feat]" "/r/t9" false
    (by decide) (by decide) (by decide) (by decide) (by decide)

/-- C10: in a non-dry-run Create whose chosen path is the head of
`inactiveTrees` and reads back as an empty directory, the
materialization command is a bare `git` invocation in the base working
copy (no `switch`, no `worktree add`), yet the slot is still removed
from `inactiveTrees` and the config persisted — de-archival without any
worktree materialization. -/
theorem empty_dir_bare_invocation
    (config : Config) (rd : String → Option (List DirEntry))
    (values : RepoConfig) (branch p : String) (rest : List String)
    (hin : values.inactive_trees = p :: rest)
    (hrd : rd p = some []) :
    create_worktree (some config) rd values branch false =
      ⟨.ok p,
        [Cmd.mk (values.base_path ++ "/" ++ values.base_tree) ["pull"],
          Cmd.mk (values.base_path ++ "/" ++ values.base_tree) ["branch", branch],
          Cmd.mk (values.base_path ++ "/" ++ values.base_tree) []],
        some { config with
          repo := insertRepo config.repo config.active_repo
            { values with inactive_trees := rest } }⟩ := by
  simp [create_worktree, hin, hrd]

/-- Witness for C10: reusing `/r/t2` while it is an empty directory. -/
theorem empty_dir_bare_invocation_witness :
    create_worktree (some cfgW1) rdEmptySlot rcW1 "feat" false =
      ⟨.ok "/r/t2",
        [Cmd.mk (rcW1.base_path ++ "/" ++ rcW1.base_tree) ["pull"],
          Cmd.mk (rcW1.base_path ++ "/" ++ rcW1.base_tree) ["branch", "feat"],
          Cmd.mk (rcW1.base_path ++ "/" ++ rcW1.base_tree) []],
        some { cfgW1 with
          repo := insertRepo cfgW1.repo cfgW1.active_repo
            { rcW1 with inactive_trees := ["/r/t3"] } }⟩ :=
  empty_dir_bare_invocation cfgW1 rdEmptySlot rcW1 "feat" "/r/t2" ["/r/t3"] rfl (by decide)

/-! ## Reconciler lemmas -/

/-- An emitted record's path is the line's first field and is not in the
inactive list. -/
theorem processFields_ok_some {inactive : List String} {raw : Bool} {items : List String}
    {p b : String} (h : processFields inactive raw items = .ok (some (p, b))) :
    items.head? = some p ∧ p ∉ inactive := by
  cases items with
  | nil => simp [processFields] at h
  | cons q rest =>
    by_cases hc : q ∈ inactive
    · simp [processFields, hc] at h
    · rcases rest with _ | ⟨c, _ | ⟨br, rest'⟩⟩
      · simp [processFields, hc] at h
      · simp [processFields, hc] at h
      · cases raw
        · simp [processFields, hc] at h
          obtain ⟨h1, h2⟩ := h
          subst h1
          exact ⟨rfl, hc⟩
        · by_cases hlen : br.length ≤ 1
          · simp [processFields, hc, hlen] at h
          · simp [processFields, hc, hlen] at h
            obtain ⟨h1, h2⟩ := h
            subst h1
            exact ⟨rfl, hc⟩

/-- A line is silently skipped exactly when its first field exists and
is in the inactive list. -/
theorem processFields_skip_iff {inactive : List String} {raw : Bool} {items : List String} :
    processFields inactive raw items = .ok none ↔
      ∃ q, items.head? = some q ∧ q ∈ inactive := by
  cases items with
  | nil => simp [processFields]
  | cons q rest =>
    by_cases hc : q ∈ inactive
    · simp [processFields, hc]
    · rcases rest with _ | ⟨c, _ | ⟨br, rest'⟩⟩
      · simp [processFields, hc]
      · simp [processFields, hc]
      · cases raw
        · simp [processFields, hc]
        · by_cases hlen : br.length ≤ 1 <;> simp [processFields, hc, hlen]

/-- A line whose first field is not inactive is never skipped: it either
aborts with an error or emits a record with that path. -/
theorem processFields_not_skipped {inactive : List String} {raw : Bool} {items : List String}
    {p : String} (hhead : items.head? = some p) (hc : p ∉ inactive) :
    (∃ e, processFields inactive raw items = .error e) ∨
      (∃ b, processFields inactive raw items = .ok (some (p, b))) := by
  cases items with
  | nil => simp at hhead
  | cons q rest =>
    simp only [List.head?_cons, Option.some.injEq] at hhead
    subst hhead
    rcases rest with _ | ⟨c, _ | ⟨br, rest'⟩⟩
    · exact .inl ⟨.panic "index out of bounds", by simp [processFields, hc]⟩
    · exact .inl ⟨.panic "index out of bounds", by simp [processFields, hc]⟩
    · cases raw
      · exact .inr ⟨br, by simp [processFields, hc]⟩
      · by_cases hlen : br.length ≤ 1
        · exact .inl ⟨.panic "byte index out of bounds", by simp [processFields, hc, hlen]⟩
        · exact .inr ⟨String.mk br.data.tail.dropLast, by simp [processFields, hc, hlen]⟩

/-- No record emitted by the reconciler loop has a path in the inactive
list, whatever the listing (even one that aborts part-way). -/
theorem processLines_excludes {inactive : List String} {raw : Bool} :
    ∀ (listing : List String) (p b : String),
      (p, b) ∈ (processLines inactive raw listing).fst →
      p ∉ inactive := by
  intro listing
  induction listing with
  | nil => intro p b h; simp [processLines] at h
  | cons line rest ih =>
    intro p b h
    rcases hf : processFields inactive raw (splitWhitespace line) with e | r
    · simp only [processLines, hf] at h
      simp at h
    · rcases r with _ | ⟨q, br⟩
      · simp only [processLines, hf] at h
        exact ih p b h
      · simp only [processLines, hf, List.mem_cons, Prod.mk.injEq] at h
        rcases h with ⟨hp, hb⟩ | h
        · subst hp
          exact (processFields_ok_some hf).2
        · exact ih p b h

/-- When the whole listing is processed without error, a path appears
among the emitted records exactly when some listing line has it as first
field and it is not inactive. -/
theorem processLines_mem_iff {inactive : List String} {raw : Bool} :
    ∀ (listing : List String), (processLines inactive raw listing).snd = none →
      ∀ p, (∃ b, (p, b) ∈ (processLines inactive raw listing).fst) ↔
        ((∃ line ∈ listing, (splitWhitespace line).head? = some p) ∧ p ∉ inactive) := by
  intro listing
  induction listing with
  | nil => intro _ p; simp [processLines]
  | cons line rest ih =>
    intro hsnd p
    rcases hf : processFields inactive raw (splitWhitespace line) with e | r
    · simp only [processLines, hf] at hsnd
      exact absurd hsnd (by simp)
    · rcases r with _ | ⟨q, br⟩
      · simp only [processLines, hf] at hsnd ⊢
        rw [ih hsnd p]
        constructor
        · rintro ⟨⟨l, hl, hh⟩, hni⟩
          exact ⟨⟨l, List.mem_cons_of_mem _ hl, hh⟩, hni⟩
        · rintro ⟨⟨l, hl, hh⟩, hni⟩
          rcases List.mem_cons.mp hl with rfl | hl'
          · obtain ⟨q', hq', hq'in⟩ := processFields_skip_iff.mp hf
            rw [hh] at hq'
            exact absurd (Option.some.inj hq' ▸ hq'in) hni
          · exact ⟨⟨l, hl', hh⟩, hni⟩
      · simp only [processLines, hf] at hsnd ⊢
        obtain ⟨hqh, hqn⟩ := processFields_ok_some hf
        constructor
        · rintro ⟨b, hb⟩
          rcases List.mem_cons.mp hb with heq | hb'
          · obtain ⟨hp, _⟩ := Prod.mk.injEq .. ▸ heq
            subst hp
            exact ⟨⟨line, List.mem_cons_self _ _, hqh⟩, hqn⟩
          · obtain ⟨⟨l, hl, hh⟩, hni⟩ := (ih hsnd p).mp ⟨b, hb'⟩
            exact ⟨⟨l, List.mem_cons_of_mem _ hl, hh⟩, hni⟩
        · rintro ⟨⟨l, hl, hh⟩, hni⟩
          rcases List.mem_cons.mp hl with rfl | hl'
          · rw [hh] at hqh
            exact ⟨br, Option.some.inj hqh ▸ List.mem_cons_self _ _⟩
          · obtain ⟨b, hb⟩ := (ih hsnd p).mpr ⟨⟨l, hl', hh⟩, hni⟩
            exact ⟨b, List.mem_cons_of_mem _ hb⟩

/-- C6: the active-worktree listing never emits a record whose path is
in `inactiveTrees`, for any listing input; and on a listing processed
without error, a path appears in the output exactly when it is the first
field of some listing line and is absent from `inactiveTrees`. -/
theorem list_active_exclusion (values : RepoConfig) (raw : Bool) (listing : List String) :
    (∀ p b, (p, b) ∈ (list_worktrees values raw listing).fst →
      p ∉ values.inactive_trees) ∧
    ((list_worktrees values raw listing).snd = none →
      ∀ p, (∃ b, (p, b) ∈ (list_worktrees values raw listing).fst) ↔
        ((∃ line ∈ listing, (splitWhitespace line).head? = some p) ∧
          p ∉ values.inactive_trees)) :=
  ⟨fun p b h => processLines_excludes listing p b h,
    fun hsnd p => processLines_mem_iff listing hsnd p⟩

/-- Witness for C6: on a concrete listing the archived path `/r/t2` is
excluded and the live path `/r/t9` is included. -/
theorem list_active_exclusion_witness :
    (∃ b, ("/r/t9", b) ∈
      (list_worktrees rcW1 true ["/r/t2 abc [old]", "/r/t9 def [feat]"]).fst) ∧
    ¬(∃ b, ("/r/t2", b) ∈
      (list_worktrees rcW1 true ["/r/t2 abc [old]", "/r/t9 def [feat]"]).fst) :=
  ⟨((list_active_exclusion rcW1 true ["/r/t2 abc [old]", "/r/t9 def [feat]"]).2
      (by decide) "/r/t9").mpr
    ⟨⟨"/r/t9 def [feat]", by simp, by decide⟩, by decide⟩,
    fun ⟨b, hb⟩ =>
      (list_active_exclusion rcW1 true ["/r/t2 abc [old]", "/r/t9 def [feat]"]).1
        "/r/t2" b hb (by decide)⟩

/-- C7 counterexample: in tabular (non-raw) mode the reconciler emits
the branch field with its brackets intact, so the bracket decoration is
not stripped in every output mode. -/
theorem tabular_branch_keeps_brackets :
    (list_worktrees ⟨"main", "/repo", []⟩ false ["/repo/tree3 abc123 [feature-z]"]).fst =
      [("/repo/tree3", "[feature-z]")] ∧ "[feature-z]" ≠ "feature-z" := by
  exact ⟨by decide, by decide⟩

/-- C7 (amended): for a well-formed listing line (three or more fields,
branch field of the form `[name]`) that is not excluded, raw mode emits
the branch with the bracket decoration stripped, while tabular mode
emits the branch field verbatim, brackets included. -/
theorem branch_strip_raw_only (values : RepoConfig) (line p c name : String)
    (rest : List String)
    (hsplit : splitWhitespace line = p :: c :: ("[" ++ name ++ "]") :: rest)
    (hnotin : p ∉ values.inactive_trees) :
    (list_worktrees values true [line]).fst = [(p, name)] ∧
    (list_worktrees values false [line]).fst = [(p, "[" ++ name ++ "]")] := by
  have hdata : ("[" ++ name ++ "]").data = '[' :: (name.data ++ [']']) := by
    simp
  have hlen : ¬(("[" ++ name ++ "]").length ≤ 1) := by
    have h2 : ("[" ++ name ++ "]").length = "[".length + name.length + "]".length := by
      rw [String.length_append, String.length_append]
    have h3 : "[".length = 1 := rfl
    have h4 : "]".length = 1 := rfl
    omega
  have hstrip : String.mk (("[" ++ name ++ "]").data.tail.dropLast) = name := by
    rw [hdata]
    simp [List.dropLast_concat]
  constructor
  · simp only [list_worktrees, processLines, hsplit, processFields, List.head?_cons,
      List.getElem?_cons_succ, List.getElem?_cons_zero]
    rw [if_neg (by simpa using hnotin), if_pos trivial, if_neg hlen, hstrip]
  · simp only [list_worktrees, processLines, hsplit, processFields, List.head?_cons,
      List.getElem?_cons_succ, List.getElem?_cons_zero]
    rw [if_neg (by simpa using hnotin)]
    simp

/-- Witness for C7 (amended) on a concrete well-formed line. -/
theorem branch_strip_raw_only_witness :
    (list_worktrees rcW0 true ["/repo/tree3 abc123 [feature-z]"]).fst =
      [("/repo/tree3", "feature-z")] ∧
    (list_worktrees rcW0 false ["/repo/tree3 abc123 [feature-z]"]).fst =
      [("/repo/tree3", "[" ++ "feature-z" ++ "]")] :=
  branch_strip_raw_only rcW0 "/repo/tree3 abc123 [feature-z]" "/repo/tree3" "abc123"
    "feature-z" [] (by decide) (by decide)

/-- C8 counterexample: the listing `["/r/t2"]` has a malformed line
(one field, fewer than three), yet because that field is in
`inactiveTrees` the reconciler silently skips the line and the listing
is processed successfully with no error. -/
theorem malformed_line_skipped_successfully :
    (splitWhitespace "/r/t2").length < 3 ∧
    list_worktrees rcW1 true ["/r/t2"] = ([], none) := by
  exact ⟨by decide, by decide⟩

/-- C8 (amended): a malformed line (fewer than three fields) never
yields an output record; it is a fatal parse error exactly when it is
not skipped first, i.e. unless the line has a first field that is a
member of `inactiveTrees`, in which case it is silently skipped. -/
theorem malformed_line_fatal_unless_inactive
    (inactive : List String) (raw : Bool) (items : List String)
    (hlen : items.length < 3) :
    (∀ r, processFields inactive raw items ≠ .ok (some r)) ∧
    (processFields inactive raw items = .ok none ↔
      ∃ q, items.head? = some q ∧ q ∈ inactive) ∧
    ((∃ e, processFields inactive raw items = .error e) ↔
      ¬∃ q, items.head? = some q ∧ q ∈ inactive) := by
  rcases items with _ | ⟨q, _ | ⟨c, _ | ⟨br, rest'⟩⟩⟩
  · exact ⟨by simp [processFields], processFields_skip_iff, by simp [processFields]⟩
  · by_cases hq : q ∈ inactive
    · exact ⟨by simp [processFields, hq], processFields_skip_iff,
        by simp [processFields, hq]⟩
    · exact ⟨by simp [processFields, hq], processFields_skip_iff,
        by simp [processFields, hq]⟩
  · by_cases hq : q ∈ inactive
    · exact ⟨by simp [processFields, hq], processFields_skip_iff,
        by simp [processFields, hq]⟩
    · exact ⟨by simp [processFields, hq], processFields_skip_iff,
        by simp [processFields, hq]⟩
  · exfalso
    simp only [List.length_cons] at hlen
    omega

/-- Witness for C8 (amended): a one-field line with the field not
inactive is a fatal error; the same line with the field inactive is
skipped. -/
theorem malformed_line_fatal_unless_inactive_witness :
    (∀ r, processFields [] true ["/r/t9"] ≠ .ok (some r)) ∧
    (processFields [] true ["/r/t9"] = .ok none ↔
      ∃ q, (["/r/t9"] : List String).head? = some q ∧ q ∈ ([] : List String)) ∧
    ((∃ e, processFields [] true ["/r/t9"] = .error e) ↔
      ¬∃ q, (["/r/t9"] : List String).head? = some q ∧ q ∈ ([] : List String)) :=
  malformed_line_fatal_unless_inactive [] true ["/r/t9"] (by decide)

end TreeHoprs
